import Mathlib

/-!
# Verification of the STM32 SPI driver core (embassy-stm32, `src/spi/mod.rs`)

This file gives a shallow embedding of the SPI driver's pure algorithms
(baud-rate divisor search, frequency computation, configuration translation)
and of its register-level control flow (blocking word transfers, receive-FIFO
draining, word-size reconfiguration, DMA hand-off) as executable Lean
definitions, and proves properties of them.

Hardware registers are modelled by an explicit state carrying an event log
(every status-register read, data-register access and control-field write is
recorded), with the environment's responses (status register contents,
received data) supplied by an oracle.  Spin loops are made total by fuel.
Machine integers Hertz/u32 are modelled as `Nat` (no arithmetic here can
overflow 32 bits in the configurations considered; divisions are Rust's
truncating unsigned divisions, which coincide with `Nat` division).
-/

namespace Spi

/-- SPI error, from `enum Error` in `spi/mod.rs`. -/
inductive Error where
  | Framing
  | Crc
  | ModeFault
  | Overrun
deriving DecidableEq, Repr

/-- Baud rate divisor field values (`vals::Br` / `vals::Mbr`): three bits. -/
inductive Br where
  | div2
  | div4
  | div8
  | div16
  | div32
  | div64
  | div128
  | div256
deriving DecidableEq, Repr

/-- The divisor denoted by a `Br` value, from the `match` in `compute_frequency`. -/
def Br.divisor : Br → Nat
  | .div2 => 2
  | .div4 => 4
  | .div8 => 8
  | .div16 => 16
  | .div32 => 32
  | .div64 => 64
  | .div128 => 128
  | .div256 => 256

/-- Embeds `compute_baud_rate(kernel_clock, freq)`.  The Rust function
panics when `kernel_clock / freq == 0`; for `freq = 0` the Rust division
itself panics, and `Nat` division then also lands in the quotient-zero
branch, so both panics are modelled uniformly as `none`.  The guards are the
Rust match arms `1..=2`, `3..=5`, … applied to the truncating quotient. -/
def compute_baud_rate (kernel_clock freq : Nat) : Option Br :=
  if kernel_clock / freq = 0 then none
  else if kernel_clock / freq ≤ 2 then some .div2
  else if kernel_clock / freq ≤ 5 then some .div4
  else if kernel_clock / freq ≤ 11 then some .div8
  else if kernel_clock / freq ≤ 23 then some .div16
  else if kernel_clock / freq ≤ 39 then some .div32
  else if kernel_clock / freq ≤ 95 then some .div64
  else if kernel_clock / freq ≤ 191 then some .div128
  else some .div256

/-- Embeds `compute_frequency(kernel_clock, br)`: exact truncating division
of the kernel clock by the selected divisor (`Hertz / u16`). -/
def compute_frequency (kernel_clock : Nat) (br : Br) : Nat :=
  kernel_clock / br.divisor

/-- The frequency actually achieved for a request: `compute_frequency` of the
divisor selected by `compute_baud_rate` (`none` when the divisor search
panics). -/
def achieved_frequency (kernel_clock freq : Nat) : Option Nat :=
  (compute_baud_rate kernel_clock freq).map (compute_frequency kernel_clock)

/-! ## Register machine model

The driver's register traffic is modelled by a state carrying an event log
(most recent event first).  Status-register contents are supplied by an
oracle indexed by the number of status reads so far; data-register reads are
supplied by an oracle that may depend on the words transmitted so far (so a
loopback double is expressible).  Word values are `Nat` (the driver is
generic over 4–32-bit words; word width only matters through the
`current_word_size` driver field, modelled as a `Nat` encoding). -/

/-- Hardware generation selected by the `cfg` flags: `v1` covers
`spi_v1`/`spi_f1` (modelled with the framing flag of `spi_v1`; `spi_f1`'s
status register lacks it), `v2` is `spi_v2`, `v3` covers
`spi_v3`/`spi_v4`/`spi_v5`. -/
inductive Gen where
  | v1
  | v2
  | v3
deriving DecidableEq, Repr

/-- One status-register value, with generation-neutral field names:
`txr` is TXE (v1/v2) or TXP (v3); `rxr` is RXNE (v1/v2) or RXP (v3);
`fre` is FRE (v1/v2) or TIFRE (v3); `crc` is CRCERR (v1/v2) or CRCE (v3);
`eot` and `txc` exist on v3; `ftlvl` on v2; `bsy` on v1/v2. -/
structure SrFlags where
  ovr : Bool := false
  fre : Bool := false
  modf : Bool := false
  crc : Bool := false
  txr : Bool := false
  rxr : Bool := false
  eot : Bool := false
  txc : Bool := false
  bsy : Bool := false
  ftlvl : Nat := 0
deriving DecidableEq, Repr

/-- One observable hardware interaction of the driver. -/
inductive Event where
  | readSr (v : SrFlags)
  | readRx (v : Nat)
  | writeTx (w : Nat)
  | setSpe (b : Bool)
  | setCsusp (b : Bool)
  | setCstart (b : Bool)
  | setWidth (cfg : Nat)
  | setTxDmaEn (b : Bool)
  | setRxDmaEn (b : Bool)
  | dmaWrite (buf : List Nat)
  | dmaWriteRepeated (w : Nat) (count : Nat)
  | dmaRead (count : Nat)
  | awaitDma
deriving DecidableEq, Repr

/-- The hardware environment: `srs n` is the value returned by the `n`-th
status-register read; `rx n tx` is the value returned by the `n`-th
data-register read when the words transmitted so far are `tx` (most recent
first). -/
structure Hw where
  srs : Nat → SrFlags
  rx : Nat → List Nat → Nat

/-- Driver/hardware state: the event log (most recent first), the read
counters feeding the oracles, the transmit log feeding the rx oracle, and
the driver's `current_word_size` field. -/
structure St where
  events : List Event := []
  srCount : Nat := 0
  rxCount : Nat := 0
  txLog : List Nat := []
  word_size : Nat := 7
deriving DecidableEq, Repr

def readSrReg (hw : Hw) (s : St) : SrFlags × St :=
  let v := hw.srs s.srCount
  (v, { s with events := .readSr v :: s.events, srCount := s.srCount + 1 })

def readRxReg (hw : Hw) (s : St) : Nat × St :=
  let v := hw.rx s.rxCount s.txLog
  (v, { s with events := .readRx v :: s.events, rxCount := s.rxCount + 1 })

def writeTxReg (w : Nat) (s : St) : St :=
  { s with events := .writeTx w :: s.events, txLog := w :: s.txLog }

def emit (e : Event) (s : St) : St :=
  { s with events := e :: s.events }

/-- Embeds `check_error_flags(sr)`: the `Err` case of the Rust
`Result<(), Error>` is `some`. -/
def check_error_flags (sr : SrFlags) : Option Error :=
  if sr.ovr then some .Overrun
  else if sr.fre then some .Framing
  else if sr.modf then some .ModeFault
  else if sr.crc then some .Crc
  else none

/-- Common shape of `spin_until_tx_ready` / `spin_until_rx_ready`: read the
status register, check the error flags, stop when `ready`; made total by
fuel (`none` = the Rust loop has not exited within `fuel` polls). -/
def spin_until (ready : SrFlags → Bool) (hw : Hw) : Nat → St → Option (St × Except Error Unit)
  | 0, _ => none
  | fuel + 1, s =>
    let (sr, s) := readSrReg hw s
    match check_error_flags sr with
    | some e => some (s, .error e)
    | none => if ready sr then some (s, .ok ()) else spin_until ready hw fuel s

def spin_until_tx_ready (hw : Hw) (fuel : Nat) (s : St) : Option (St × Except Error Unit) :=
  spin_until (fun sr => sr.txr) hw fuel s

def spin_until_rx_ready (hw : Hw) (fuel : Nat) (s : St) : Option (St × Except Error Unit) :=
  spin_until (fun sr => sr.rxr) hw fuel s

/-- Common shape of the unchecked wait loops (`while cond(sr) {}`). -/
def spin_while (cond : SrFlags → Bool) (hw : Hw) : Nat → St → Option St
  | 0, _ => none
  | fuel + 1, s =>
    let (sr, s) := readSrReg hw s
    if cond sr then spin_while cond hw fuel s else some s

/-- Embeds `flush_rx_fifo(regs)`: on every generation (including v3, which
uses RXP/RXDR32) it discards one data word while the receive-ready flag is
set. -/
def flush_rx_fifo (hw : Hw) : Nat → St → Option St
  | 0, _ => none
  | fuel + 1, s =>
    let (sr, s) := readSrReg hw s
    if sr.rxr then
      let (_, s) := readRxReg hw s
      flush_rx_fifo hw fuel s
    else some s

/-- Embeds `Spi::set_word_size(word_size)`.  `setWidth` stands for the
generation's width-field write (`dff` on v1, `ds`+`frxth` on v2, `dsize` on
v3).  On v3 the code runs `while regs.sr().read().eot() {}` after asserting
CSUSP, i.e. it spins while EOT is set. -/
def set_word_size (g : Gen) (hw : Hw) (fuel : Nat) (s : St) (word_size : Nat) : Option St :=
  if s.word_size = word_size then some s
  else
    match g with
    | .v1 =>
      let s := emit (.setWidth word_size) (emit (.setSpe false) s)
      let s := emit (.setSpe true) s
      some { s with word_size := word_size }
    | .v2 =>
      let s := emit (.setSpe false) s
      let s := emit (.setWidth word_size) s
      let s := emit (.setSpe true) s
      some { s with word_size := word_size }
    | .v3 =>
      let s := emit (.setCsusp true) s
      match spin_while (fun sr => sr.eot) hw fuel s with
      | none => none
      | some s =>
        let s := emit (.setSpe false) s
        let s := emit (.setWidth word_size) s
        let s := emit (.setSpe true) (emit (.setCsusp false) s)
        some { s with word_size := word_size }

/-- Embeds `transfer_word(regs, tx_word)`: spin for transmit-ready, write
the word (v3 additionally sets CSTART), spin for receive-ready, read the
received word. -/
def transfer_word (g : Gen) (hw : Hw) (fuel : Nat) (s : St) (tx_word : Nat) :
    Option (St × Except Error Nat) :=
  match spin_until_tx_ready hw fuel s with
  | none => none
  | some (s, .error e) => some (s, .error e)
  | some (s, .ok ()) =>
    let s := writeTxReg tx_word s
    let s := if g = .v3 then emit (.setCstart true) s else s
    match spin_until_rx_ready hw fuel s with
    | none => none
    | some (s, .error e) => some (s, .error e)
    | some (s, .ok ()) =>
      let (rx_word, s) := readRxReg hw s
      some (s, .ok rx_word)

/-- Loop body of `blocking_write`: `for word in words.iter() { let _ =
transfer_word(self.regs, *word)?; }`. -/
def blocking_write_go (g : Gen) (hw : Hw) (fuel : Nat) :
    St → List Nat → Option (St × Except Error Unit)
  | s, [] => some (s, .ok ())
  | s, w :: ws =>
    match transfer_word g hw fuel s w with
    | none => none
    | some (s, .error e) => some (s, .error e)
    | some (s, .ok _) => blocking_write_go g hw fuel s ws

/-- Embeds `Spi::blocking_write(words)` for element type with width encoding
`cfg` (`W::CONFIG`): enable SPE, drain the receive FIFO, set the word size,
then transfer each word. -/
def blocking_write (g : Gen) (hw : Hw) (fuel : Nat) (s : St) (cfg : Nat) (words : List Nat) :
    Option (St × Except Error Unit) :=
  match flush_rx_fifo hw fuel (emit (.setSpe true) s) with
  | none => none
  | some s =>
    match set_word_size g hw fuel s cfg with
    | none => none
    | some s => blocking_write_go g hw fuel s words

/-- Loop body of `blocking_read`: each of the `n` buffer slots is replaced
by `transfer_word(regs, W::default())?`, and `W::default()` is `0`. -/
def blocking_read_go (g : Gen) (hw : Hw) (fuel : Nat) :
    St → Nat → Option (St × Except Error (List Nat))
  | s, 0 => some (s, .ok [])
  | s, n + 1 =>
    match transfer_word g hw fuel s 0 with
    | none => none
    | some (s, .error e) => some (s, .error e)
    | some (s, .ok r) =>
      match blocking_read_go g hw fuel s n with
      | none => none
      | some (s, .error e) => some (s, .error e)
      | some (s, .ok rs) => some (s, .ok (r :: rs))

/-- Embeds `Spi::blocking_read(words)` on a buffer of length `n`; returns
the final buffer contents. -/
def blocking_read (g : Gen) (hw : Hw) (fuel : Nat) (s : St) (cfg : Nat) (n : Nat) :
    Option (St × Except Error (List Nat)) :=
  match flush_rx_fifo hw fuel (emit (.setSpe true) s) with
  | none => none
  | some s =>
    match set_word_size g hw fuel s cfg with
    | none => none
    | some s => blocking_read_go g hw fuel s n

/-- Loop body of `blocking_transfer_in_place`: each buffer element is
transmitted and replaced by the received word. -/
def blocking_transfer_in_place_go (g : Gen) (hw : Hw) (fuel : Nat) :
    St → List Nat → Option (St × Except Error (List Nat))
  | s, [] => some (s, .ok [])
  | s, w :: ws =>
    match transfer_word g hw fuel s w with
    | none => none
    | some (s, .error e) => some (s, .error e)
    | some (s, .ok r) =>
      match blocking_transfer_in_place_go g hw fuel s ws with
      | none => none
      | some (s, .error e) => some (s, .error e)
      | some (s, .ok rs) => some (s, .ok (r :: rs))

/-- Embeds `Spi::blocking_transfer_in_place(words)`. -/
def blocking_transfer_in_place (g : Gen) (hw : Hw) (fuel : Nat) (s : St) (cfg : Nat)
    (words : List Nat) : Option (St × Except Error (List Nat)) :=
  match flush_rx_fifo hw fuel (emit (.setSpe true) s) with
  | none => none
  | some s =>
    match set_word_size g hw fuel s cfg with
    | none => none
    | some s => blocking_transfer_in_place_go g hw fuel s words

/-- Loop body of `blocking_transfer`: position `i` transmits
`write.get(i).copied().unwrap_or_default()` and stores the received word
into the read buffer when `i` is in bounds (`List.set` is a no-op out of
bounds, exactly like `read.get_mut(i)`). -/
def blocking_transfer_go (g : Gen) (hw : Hw) (fuel : Nat) :
    St → List Nat → List Nat → Nat → Nat → Option (St × Except Error (List Nat))
  | s, readBuf, _, _, 0 => some (s, .ok readBuf)
  | s, readBuf, write, i, remaining + 1 =>
    match transfer_word g hw fuel s (write.getD i 0) with
    | none => none
    | some (s, .error e) => some (s, .error e)
    | some (s, .ok rb) =>
      blocking_transfer_go g hw fuel s (readBuf.set i rb) write (i + 1) remaining

/-- Embeds `Spi::blocking_transfer(read, write)`: the loop runs for
`max(read.len(), write.len())` positions; returns the final read buffer. -/
def blocking_transfer (g : Gen) (hw : Hw) (fuel : Nat) (s : St) (cfg : Nat)
    (readBuf write : List Nat) : Option (St × Except Error (List Nat)) :=
  match flush_rx_fifo hw fuel (emit (.setSpe true) s) with
  | none => none
  | some s =>
    match set_word_size g hw fuel s cfg with
    | none => none
    | some s =>
      blocking_transfer_go g hw fuel s readBuf write 0 (max readBuf.length write.length)

/-! ## DMA-offloaded asynchronous path

The async operations are modelled synchronously as the sequence of register
writes and DMA-collaborator submissions they perform; the suspension at the
join is the `awaitDma` event.  The DMA collaborator's calls are the
`dmaWrite`/`dmaWriteRepeated`/`dmaRead` events. -/

/-- Embeds `finish_dma(regs)`: generation-specific quiescence spin, then
clear SPE and both DMA-request-enable bits. -/
def finish_dma (g : Gen) (hw : Hw) (fuel : Nat) (s : St) : Option St := do
  let s ← match g with
    | .v2 => spin_while (fun sr => decide (0 < sr.ftlvl)) hw fuel s
    | _ => some s
  let s ← match g with
    | .v3 => spin_while (fun sr => !sr.txc) hw fuel s
    | _ => spin_while (fun sr => sr.bsy) hw fuel s
  let s := emit (.setSpe false) s
  let s := emit (.setRxDmaEn false) (emit (.setTxDmaEn false) s)
  some s

/-- Embeds the async `Spi::write(data)`:
empty data returns `Ok` at once with no hardware activity. -/
def write_dma (g : Gen) (hw : Hw) (fuel : Nat) (s : St) (cfg : Nat) (data : List Nat) :
    Option (St × Except Error Unit) :=
  if data.isEmpty then some (s, .ok ())
  else
    match set_word_size g hw fuel s cfg with
    | none => none
    | some s =>
      let s := emit (.setSpe false) s
      let s := emit (.dmaWrite data) s
      let s := emit (.setTxDmaEn true) s
      let s := emit (.setSpe true) s
      let s := if g = .v3 then emit (.setCstart true) s else s
      let s := emit .awaitDma s
      match finish_dma g hw fuel s with
      | none => none
      | some s => some (s, .ok ())

/-- Embeds the async `Spi::read(data)` on a buffer of length `n`:
empty data returns `Ok` at once; otherwise the receive DMA gets the buffer
and the transmit DMA streams the constant `0x00` clock byte; v1/v2 drain
the receive FIFO first (v3 clears it on SPE=0, so there the drain is
skipped). -/
def read_dma (g : Gen) (hw : Hw) (fuel : Nat) (s : St) (cfg : Nat) (n : Nat) :
    Option (St × Except Error Unit) :=
  if n = 0 then some (s, .ok ())
  else
    match set_word_size g hw fuel s cfg with
    | none => none
    | some s =>
      let s := emit (.setSpe false) s
      match (if g = .v3 then some s else flush_rx_fifo hw fuel s) with
      | none => none
      | some s =>
        let s := emit (.setRxDmaEn true) s
        let s := emit (.dmaRead n) s
        let s := emit (.dmaWriteRepeated 0 n) s
        let s := emit (.setTxDmaEn true) s
        let s := emit (.setSpe true) s
        let s := if g = .v3 then emit (.setCstart true) s else s
        let s := emit .awaitDma s
        match finish_dma g hw fuel s with
        | none => none
        | some s => some (s, .ok ())

/-- Embeds the async `Spi::transfer_inner(read, write)` on a read buffer of
length `rx_len` and write buffer `write`: asserts `rx_len == tx_len` (panic
modelled as `none`), returns `Ok` at once when the length is zero. -/
def transfer_inner (g : Gen) (hw : Hw) (fuel : Nat) (s : St) (cfg : Nat) (rx_len : Nat)
    (write : List Nat) : Option (St × Except Error Unit) :=
  if rx_len ≠ write.length then none
  else if rx_len = 0 then some (s, .ok ())
  else
    match set_word_size g hw fuel s cfg with
    | none => none
    | some s =>
      let s := emit (.setSpe false) s
      match (if g = .v3 then some s else flush_rx_fifo hw fuel s) with
      | none => none
      | some s =>
        let s := emit (.setRxDmaEn true) s
        let s := emit (.dmaRead rx_len) s
        let s := emit (.dmaWrite write) s
        let s := emit (.setTxDmaEn true) s
        let s := emit (.setSpe true) s
        let s := if g = .v3 then emit (.setCstart true) s else s
        let s := emit .awaitDma s
        match finish_dma g hw fuel s with
        | none => none
        | some s => some (s, .ok ())

/-! ## Configuration translation (`set_config` / `get_current_config`)

The mode/bit-order/baud-rate register fields written by `set_config` and
read back by `get_current_config` are collected in `ConfigRegs` (they live
in CR1 on v1/v2 and in CFG1/CFG2 on v3; field values and the translation
logic are identical across generations). -/

/-- `Polarity` from `embedded_hal_02::spi`. -/
inductive Polarity where
  | IdleLow
  | IdleHigh
deriving DecidableEq, Repr

/-- `Phase` from `embedded_hal_02::spi`. -/
inductive Phase where
  | CaptureOnFirstTransition
  | CaptureOnSecondTransition
deriving DecidableEq, Repr

/-- `Mode` from `embedded_hal_02::spi`. -/
structure Mode where
  polarity : Polarity
  phase : Phase
deriving DecidableEq, Repr

/-- `BitOrder` from `spi/mod.rs`. -/
inductive BitOrder where
  | LsbFirst
  | MsbFirst
deriving DecidableEq, Repr

/-- `Config` from `spi/mod.rs` (frequency in Hz as `Nat`). -/
structure Config where
  mode : Mode
  bit_order : BitOrder
  frequency : Nat
deriving DecidableEq, Repr

/-- Register encoding `vals::Cpol`. -/
inductive Cpol where
  | IDLEHIGH
  | IDLELOW
deriving DecidableEq, Repr

/-- Register encoding `vals::Cpha`. -/
inductive Cpha where
  | FIRSTEDGE
  | SECONDEDGE
deriving DecidableEq, Repr

/-- Register encoding `vals::Lsbfirst`. -/
inductive Lsbfirst where
  | LSBFIRST
  | MSBFIRST
deriving DecidableEq, Repr

/-- Embeds `Config::raw_phase`. -/
def Config.raw_phase (c : Config) : Cpha :=
  match c.mode.phase with
  | .CaptureOnSecondTransition => .SECONDEDGE
  | .CaptureOnFirstTransition => .FIRSTEDGE

/-- Embeds `Config::raw_polarity`. -/
def Config.raw_polarity (c : Config) : Cpol :=
  match c.mode.polarity with
  | .IdleHigh => .IDLEHIGH
  | .IdleLow => .IDLELOW

/-- Embeds `Config::raw_byte_order`. -/
def Config.raw_byte_order (c : Config) : Lsbfirst :=
  match c.bit_order with
  | .LsbFirst => .LSBFIRST
  | .MsbFirst => .MSBFIRST

/-- The mode/bit-order/divisor register fields touched by `set_config`. -/
structure ConfigRegs where
  cpol : Cpol
  cpha : Cpha
  lsbfirst : Lsbfirst
  br : Br
deriving DecidableEq, Repr

/-- Embeds `Spi::set_config(config)` (the register writes, over the fields
it touches; the `compute_baud_rate` panic is `none`, otherwise the Rust
function returns `Ok(())`). -/
def set_config (kernel_clock : Nat) (_regs : ConfigRegs) (config : Config) :
    Option ConfigRegs :=
  match compute_baud_rate kernel_clock config.frequency with
  | none => none
  | some br =>
    some { cpol := config.raw_polarity, cpha := config.raw_phase,
           lsbfirst := config.raw_byte_order, br := br }

/-- Embeds `Spi::get_current_config()`. -/
def get_current_config (kernel_clock : Nat) (regs : ConfigRegs) : Config :=
  let polarity := if regs.cpol = .IDLELOW then Polarity.IdleLow else Polarity.IdleHigh
  let phase := if regs.cpha = .FIRSTEDGE then Phase.CaptureOnFirstTransition
    else Phase.CaptureOnSecondTransition
  let bit_order := if regs.lsbfirst = .LSBFIRST then BitOrder.LsbFirst else BitOrder.MsbFirst
  { mode := { polarity := polarity, phase := phase }, bit_order := bit_order,
    frequency := compute_frequency kernel_clock regs.br }

/-! ## Spec-side definitions and test doubles -/

/-- The divisor range table as the spec states it (§4.3):
[0,2]→2, [3,5]→4, [6,11]→8, [12,23]→16, [24,39]→32, [40,95]→64,
[96,191]→128, [192,∞)→256, applied to `r = K / F`. -/
def specDivisorTable (r : Nat) : Nat :=
  if r ≤ 2 then 2
  else if r ≤ 5 then 4
  else if r ≤ 11 then 8
  else if r ≤ 23 then 16
  else if r ≤ 39 then 32
  else if r ≤ 95 then 64
  else if r ≤ 191 then 128
  else 256

/-- The Gen3 word-size sequence as the spec/claim words it: identical to
`set_word_size Gen.v3` except that the wait after asserting CSUSP spins
*until the transfer-complete status bit (EOT) is set*, i.e. while EOT is
clear — whereas the code's `while regs.sr().read().eot() {}` spins while
EOT is set.  Used only to compare the claim's wording against the code. -/
def set_word_size_v3_spec (hw : Hw) (fuel : Nat) (s : St) (word_size : Nat) : Option St :=
  if s.word_size = word_size then some s
  else
    let s := emit (.setCsusp true) s
    match spin_while (fun sr => !sr.eot) hw fuel s with
    | none => none
    | some s =>
      let s := emit (.setSpe false) s
      let s := emit (.setWidth word_size) s
      let s := emit (.setSpe true) (emit (.setCsusp false) s)
      some { s with word_size := word_size }

/-- The trace (most recent first) of a wait loop that polled the status
register `n + 1` times starting at read index `base`. -/
def sr_polls (hw : Hw) (base n : Nat) : List Event :=
  (List.range (n + 1)).map (fun i => Event.readSr (hw.srs (base + n - i)))

/-- The trace (most recent first) of a `flush_rx_fifo` run that drained `k`
words: `k` poll/discard pairs followed by the terminating poll, with status
reads starting at index `srBase`, data reads at index `rxBase`, and `tx` the
(unchanged) transmit log feeding the data oracle. -/
def drain_events (hw : Hw) (srBase rxBase : Nat) (tx : List Nat) : Nat → List Event
  | 0 => [Event.readSr (hw.srs srBase)]
  | k + 1 =>
    drain_events hw (srBase + 1) (rxBase + 1) tx k ++
      [Event.readRx (hw.rx rxBase tx), Event.readSr (hw.srs srBase)]

/-- Loopback test double: transmit-ready on every status read, receive-ready
on every status read except the very first (so the initial drain loop stops
at once), no error flags; a data-register read returns the most recently
transmitted word. -/
def loopback : Hw :=
  { srs := fun n => { txr := true, rxr := decide (n ≠ 0) },
    rx := fun _ tx => tx.headD 0 }

/-- Test double whose status register always reads as idle (all flags
clear). -/
def hwIdle : Hw :=
  { srs := fun _ => {}, rx := fun _ _ => 0 }

/-- Test double whose status register always reports EOT set (a transfer
permanently in progress). -/
def hwEotSet : Hw :=
  { srs := fun _ => { eot := true }, rx := fun _ _ => 0 }

/-- Test double with one stale word in the receive FIFO: receive-ready on
the first status read only. -/
def hwStaleRx : Hw :=
  { srs := fun n => { rxr := decide (n = 0) }, rx := fun _ _ => 0 }

/-- Is this event a read of the receive data register? -/
def Event.isRxRead : Event → Bool
  | .readRx _ => true
  | _ => false

/-- Number of receive-data-register reads performed by a blocking-write
run (`0` if the run did not terminate within fuel). -/
def rx_read_count (r : Option (St × Except Error Unit)) : Nat :=
  match r with
  | some (s, _) => s.events.countP Event.isRxRead
  | none => 0

/-- Sample register contents used to exercise the configuration
round-trip. -/
def sampleRegs : ConfigRegs :=
  { cpol := .IDLEHIGH, cpha := .SECONDEDGE, lsbfirst := .LSBFIRST, br := .div2 }

/-- Sample configuration (SPI mode 0, MSB first, 1 MHz). -/
def sampleConfig : Config :=
  { mode := { polarity := .IdleLow, phase := .CaptureOnFirstTransition },
    bit_order := .MsbFirst, frequency := 1000000 }

/-- The read buffer produced by the `blocking_transfer` loop: starting at
position `i`, overwrite the next `r` in-bounds slots with the words the
loopback double hands back (`write.getD i 0` at position `i`). -/
def setFrom (write : List Nat) : List Nat → Nat → Nat → List Nat
  | readBuf, _, 0 => readBuf
  | readBuf, i, r + 1 => setFrom write (readBuf.set i (write.getD i 0)) (i + 1) r

/-- Test double for the error short-circuit scenario: every status read is
transmit/receive ready, except the fourth (the transmit poll for the second
word of a three-word write), which reports an overrun. -/
def hwOvrOnSecond : Hw :=
  { srs := fun n => if n = 3 then { ovr := true } else { txr := true, rxr := decide (n ≠ 0) },
    rx := fun _ tx => tx.headD 0 }

/-- The state in which `blocking_write [1,2,3]` on `hwOvrOnSecond` aborts:
one word transmitted, four status polls, the overrun seen on the fourth. -/
def overrunRunState : St :=
  { events := [.readSr { ovr := true }, .readRx 1, .readSr { txr := true, rxr := true },
      .writeTx 1, .readSr { txr := true, rxr := true }, .readSr { txr := true, rxr := false },
      .setSpe true],
    srCount := 4, rxCount := 1, txLog := [1], word_size := 7 }

/-! ## Helper lemmas -/

theorem Br.divisor_pos (b : Br) : 0 < b.divisor := by
  cases b <;> simp [Br.divisor]

theorem compute_baud_rate_isSome {K F : Nat} (hF : 0 < F) (hFK : F ≤ K) :
    ∃ br, compute_baud_rate K F = some br := by
  have h1 : 1 ≤ K / F := (Nat.one_le_div_iff hF).mpr hFK
  unfold compute_baud_rate
  split_ifs <;> first | omega | exact ⟨_, rfl⟩

theorem compute_baud_rate_divisor_eq {K F : Nat} {b : Br}
    (hb : compute_baud_rate K F = some b) : b.divisor = specDivisorTable (K / F) := by
  unfold compute_baud_rate at hb
  unfold specDivisorTable
  split_ifs at hb ⊢ <;> simp_all [Br.divisor] <;> subst hb <;> rfl

set_option maxHeartbeats 1000000 in
theorem specDivisorTable_mono {r1 r2 : Nat} (h : r1 ≤ r2) :
    specDivisorTable r1 ≤ specDivisorTable r2 := by
  unfold specDivisorTable; split_ifs <;> omega

/-! ## Claim theorems -/

/-- Claim C3 (counterexample): the achieved frequency is NOT always at most
the requested one.  At kernel clock 5 MHz and request 1 MHz the quotient is
5, selecting divisor 4, so the achieved frequency is 1.25 MHz — strictly
above the request. -/
theorem achieved_frequency_not_one_sided :
    achieved_frequency 5000000 1000000 = some 1250000 ∧ ¬(1250000 ≤ 1000000) := by
  constructor
  · decide
  · decide

/-- Claim C3 (amended): for every kernel clock `K` and request `F` with
`0 < F ≤ K` and `K < 256·F` (the divisor not clamped at its maximum), the
achieved frequency `K / divisor` is at most `3/2` of the request; it can
exceed the request (see the counterexample), so the approximation is not
one-sided. -/
theorem achieved_frequency_bounded (K F a : Nat) (hF : 0 < F) (hFK : F ≤ K)
    (hcap : K < 256 * F) (ha : achieved_frequency K F = some a) : 2 * a ≤ 3 * F := by
  have h1 : 1 ≤ K / F := (Nat.one_le_div_iff hF).mpr hFK
  have hub : ∀ m : Nat, K / F < m → K < m * F := fun m hm => (Nat.div_lt_iff_lt_mul hF).mp hm
  simp only [achieved_frequency, compute_baud_rate] at ha
  split_ifs at ha with h0 h2 h5 h11 h23 h39 h95 h191 <;>
    simp only [Option.map_some', Option.map_none', Option.some.injEq,
      compute_frequency, Br.divisor] at ha
  · omega
  · have := hub 3 (by omega); omega
  · have := hub 6 (by omega); omega
  · have := hub 12 (by omega); omega
  · have := hub 24 (by omega); omega
  · have := hub 40 (by omega); omega
  · have := hub 96 (by omega); omega
  · have := hub 192 (by omega); omega
  · omega

/-- Witness for the amended C3 theorem at `K = 5 MHz`, `F = 1 MHz`,
achieved `1.25 MHz`. -/
theorem achieved_frequency_bounded_witness :
    0 < 1000000 ∧ 2 * 1250000 ≤ 3 * 1000000 :=
  ⟨by decide,
   achieved_frequency_bounded 5000000 1000000 1250000 (by decide) (by decide)
     (by decide) (by decide)⟩

/-- Claim C6: when the integer quotient `K / F` is zero (the request
exceeds the kernel clock, or is zero) `compute_baud_rate` panics
(modelled as `none`) instead of clamping; and whenever `0 < F ≤ K` it
returns a divisor, which agrees with the spec's inclusive range table
applied to `r = K / F`. -/
theorem compute_baud_rate_panic_and_table :
    (∀ K F : Nat, K / F = 0 → compute_baud_rate K F = none) ∧
    (∀ K F : Nat, 0 < F → F ≤ K → ∃ br, compute_baud_rate K F = some br ∧
      br.divisor = specDivisorTable (K / F)) := by
  constructor
  · intro K F h; simp [compute_baud_rate, h]
  · intro K F hF hFK
    obtain ⟨br, hbr⟩ := compute_baud_rate_isSome hF hFK
    exact ⟨br, hbr, compute_baud_rate_divisor_eq hbr⟩

/-- Witness for C6: requesting 2 MHz from a 1 MHz kernel clock panics
(spec testable property 3). -/
theorem compute_baud_rate_panic_witness :
    compute_baud_rate 1000000 2000000 = none :=
  compute_baud_rate_panic_and_table.1 1000000 2000000 (by decide)

/-- Claim C7: the achieved frequency is monotone in the requested one —
for `0 < F1 < F2 ≤ K`, the frequency achieved for `F1` is at most the one
achieved for `F2`. -/
theorem achieved_frequency_mono (K F1 F2 a1 a2 : Nat) (h1 : 0 < F1) (h12 : F1 < F2)
    (_h2K : F2 ≤ K) (ha1 : achieved_frequency K F1 = some a1)
    (ha2 : achieved_frequency K F2 = some a2) : a1 ≤ a2 := by
  have hr : K / F2 ≤ K / F1 := Nat.div_le_div_left h12.le h1
  simp only [achieved_frequency] at ha1 ha2
  cases hb1 : compute_baud_rate K F1 with
  | none => simp [hb1] at ha1
  | some b1 =>
    cases hb2 : compute_baud_rate K F2 with
    | none => simp [hb2] at ha2
    | some b2 =>
      rw [hb1] at ha1; rw [hb2] at ha2
      simp only [Option.map_some', Option.some.injEq, compute_frequency] at ha1 ha2
      subst ha1; subst ha2
      have hd : b2.divisor ≤ b1.divisor := by
        rw [compute_baud_rate_divisor_eq hb1, compute_baud_rate_divisor_eq hb2]
        exact specDivisorTable_mono hr
      exact Nat.div_le_div_left hd b2.divisor_pos

/-- Witness for C7 at `K = 8 MHz`, `F1 = 1 MHz` (achieved 1 MHz),
`F2 = 3 MHz` (achieved 4 MHz). -/
theorem achieved_frequency_mono_witness :
    achieved_frequency 8000000 1000000 = some 1000000 ∧
    achieved_frequency 8000000 3000000 = some 4000000 ∧
    1000000 ≤ 4000000 :=
  ⟨by decide, by decide,
   achieved_frequency_mono 8000000 1000000 3000000 1000000 4000000 (by decide)
     (by decide) (by decide) (by decide) (by decide)⟩

/-- Claim C8: applying a legal configuration with `set_config` and reading
it back with `get_current_config` returns the same mode (polarity and
phase) and the same bit order regardless of frequency; and when the
requested frequency lies exactly on a divisor boundary (`K = d·F` for a
divisor `d` of the hardware's set) the read-back frequency is exactly the
requested one. -/
theorem config_roundtrip (K : Nat) (regs : ConfigRegs) (c : Config)
    (hF : 0 < c.frequency) (hFK : c.frequency ≤ K) :
    ((set_config K regs c).map (fun r =>
        ((get_current_config K r).mode, (get_current_config K r).bit_order))) =
      some (c.mode, c.bit_order) ∧
    (∀ d, d ∈ ([2, 4, 8, 16, 32, 64, 128, 256] : List Nat) → K = d * c.frequency →
      (set_config K regs c).map (fun r => (get_current_config K r).frequency) =
        some c.frequency) := by
  obtain ⟨br, hbr⟩ := compute_baud_rate_isSome hF hFK
  constructor
  · obtain ⟨⟨pol, ph⟩, bo, f⟩ := c
    cases pol <;> cases ph <;> cases bo <;>
      simp [set_config, hbr, get_current_config, Config.raw_polarity, Config.raw_phase,
        Config.raw_byte_order]
  · intro d hd hKd
    have hq : K / c.frequency = d := by rw [hKd, Nat.mul_div_cancel _ hF]
    have hdiv := compute_baud_rate_divisor_eq hbr
    rw [hq] at hdiv
    simp only [set_config, hbr, Option.map_some', Option.some.injEq]
    simp only [get_current_config, compute_frequency]
    rw [hdiv]
    fin_cases hd <;> simp only [specDivisorTable] <;> norm_num <;> omega

/-- Witness for C8 at `K = 8 MHz` and the sample 1 MHz mode-0 MSB-first
configuration: mode and bit order round-trip, and the frequency is exact on
the `d = 8` boundary (spec testable property 2). -/
theorem config_roundtrip_witness :
    ((set_config 8000000 sampleRegs sampleConfig).map (fun r =>
        ((get_current_config 8000000 r).mode, (get_current_config 8000000 r).bit_order))) =
      some (sampleConfig.mode, sampleConfig.bit_order) ∧
    (set_config 8000000 sampleRegs sampleConfig).map
        (fun r => (get_current_config 8000000 r).frequency) = some 1000000 :=
  ⟨(config_roundtrip 8000000 sampleRegs sampleConfig (by decide) (by decide)).1,
   (config_roundtrip 8000000 sampleRegs sampleConfig (by decide) (by decide)).2 8
     (by decide) (by decide)⟩

theorem sr_polls_succ (hw : Hw) (c n : Nat) :
    sr_polls hw c (n + 1) = sr_polls hw (c + 1) n ++ [Event.readSr (hw.srs c)] := by
  unfold sr_polls
  rw [List.range_succ, List.map_append]
  congr 1
  · apply List.map_congr_left
    intro i hi
    simp only [List.mem_range] at hi
    have : c + (n + 1) - i = c + 1 + n - i := by omega
    rw [this]
  · simp

theorem spin_while_streak (cond : SrFlags → Bool) (hw : Hw) :
    ∀ (n fuel : Nat) (s : St),
      (∀ i, i < n → cond (hw.srs (s.srCount + i)) = true) →
      cond (hw.srs (s.srCount + n)) = false → n < fuel →
      spin_while cond hw fuel s =
        some { s with events := sr_polls hw s.srCount n ++ s.events,
                      srCount := s.srCount + (n + 1) } := by
  intro n
  induction n with
  | zero =>
    intro fuel s _ hstop hfuel
    obtain ⟨f, rfl⟩ : ∃ f, fuel = f + 1 := ⟨fuel - 1, by omega⟩
    unfold spin_while
    simp only [readSrReg]
    rw [Nat.add_zero] at hstop
    rw [hstop]
    simp [sr_polls, List.range_succ]
  | succ n ih =>
    intro fuel s hstreak hstop hfuel
    obtain ⟨f, rfl⟩ : ∃ f, fuel = f + 1 := ⟨fuel - 1, by omega⟩
    unfold spin_while
    simp only [readSrReg]
    have h0 : cond (hw.srs s.srCount) = true := by
      have := hstreak 0 (by omega)
      simpa using this
    rw [h0]
    simp only []
    have hrec := ih f { s with events := Event.readSr (hw.srs s.srCount) :: s.events,
                               srCount := s.srCount + 1 }
      (by intro i hi; simpa [Nat.add_assoc, Nat.add_comm 1 i] using hstreak (i + 1) (by omega))
      (by simpa [Nat.add_assoc, Nat.add_comm 1 n] using hstop)
      (by omega)
    rw [hrec]
    simp only [if_true, Option.some.injEq, St.mk.injEq, and_true, true_and]
    refine ⟨?_, by omega⟩
    rw [sr_polls_succ]
    simp

/-- Claim C9: calling `set_word_size` with the currently programmed width
is a no-op — the state (in particular the event log) is returned unchanged,
so no register is read or written; consequently, after any successful
`set_word_size`, a second call with the same width has no register side
effects. -/
theorem set_word_size_noop :
    (∀ (g : Gen) (hw : Hw) (fuel : Nat) (s : St) (w : Nat), s.word_size = w →
      set_word_size g hw fuel s w = some s) ∧
    (∀ (g : Gen) (hw : Hw) (fuel : Nat) (s s' : St) (w : Nat),
      set_word_size g hw fuel s w = some s' →
      set_word_size g hw fuel s' w = some s') := by
  have h1 : ∀ (g : Gen) (hw : Hw) (fuel : Nat) (s : St) (w : Nat), s.word_size = w →
      set_word_size g hw fuel s w = some s := by
    intro g hw fuel s w h
    unfold set_word_size
    rw [if_pos h]
  refine ⟨h1, ?_⟩
  intro g hw fuel s s' w h
  apply h1
  unfold set_word_size at h
  split_ifs at h with hc
  · cases h; exact hc
  · cases g <;> simp only [] at h
    · cases h; rfl
    · cases h; rfl
    · cases hsp : spin_while (fun sr => sr.eot) hw fuel (emit (.setCsusp true) s) with
      | none => rw [hsp] at h; cases h
      | some s1 => rw [hsp] at h; cases h; rfl

/-- Witness for C9: a same-width call on the 8-bit default is the identity,
and a second call after programming width 9 has no side effects. -/
theorem set_word_size_noop_witness :
    set_word_size .v1 hwIdle 0 {} 7 = some {} ∧
    set_word_size .v1 hwIdle 0
        { events := [.setSpe true, .setWidth 9, .setSpe false], word_size := 9 } 9 =
      some { events := [.setSpe true, .setWidth 9, .setSpe false], word_size := 9 } :=
  ⟨set_word_size_noop.1 .v1 hwIdle 0 {} 7 rfl,
   set_word_size_noop.2 .v1 hwIdle 0 {} _ 9 (by decide)⟩

/-- Claim C4 (counterexample): the claim says the Gen3 sequence spin-waits
*until the transfer-complete status bit (EOT) is set*; the code's
`while regs.sr().read().eot() {}` does the opposite — it spins while EOT is
set.  On hardware whose status register continuously reports EOT set, the
code's wait never exits (`none` for any fuel; shown here at fuel 5), while
the sequence as claimed would proceed past its first poll. -/
theorem set_word_size_v3_wait_counterexample :
    set_word_size .v3 hwEotSet 5 {} 9 = none ∧
    set_word_size_v3_spec hwEotSet 5 {} 9 ≠ none := by
  constructor
  · decide
  · decide

/-- Claim C4 (amended): on Gen3, `set_word_size` with a new width asserts
CSUSP, spin-waits until EOT is *clear* (polling the status register while
EOT reads set), clears SPE, writes the DSIZE width field, clears CSUSP and
sets SPE (in that order), and records the new width as current. -/
theorem set_word_size_v3_sequence (hw : Hw) (fuel : Nat) (s : St) (w n : Nat)
    (hne : ¬ s.word_size = w)
    (hstreak : ∀ i, i < n → (hw.srs (s.srCount + i)).eot = true)
    (hstop : (hw.srs (s.srCount + n)).eot = false)
    (hfuel : n < fuel) :
    set_word_size .v3 hw fuel s w =
      some { events := .setSpe true :: .setCsusp false :: .setWidth w :: .setSpe false ::
               (sr_polls hw s.srCount n ++ .setCsusp true :: s.events),
             srCount := s.srCount + (n + 1), rxCount := s.rxCount, txLog := s.txLog,
             word_size := w } := by
  unfold set_word_size
  rw [if_neg hne]
  have hsp := spin_while_streak (fun sr => sr.eot) hw n fuel (emit (.setCsusp true) s)
    hstreak hstop hfuel
  simp only [emit] at hsp
  simp only [emit, hsp]

/-- Witness for C4 at a width change 7 → 9 on idle hardware (EOT clear at
the first poll). -/
theorem set_word_size_v3_sequence_witness :
    set_word_size .v3 hwIdle 1 {} 9 =
      some { events := .setSpe true :: .setCsusp false :: .setWidth 9 :: .setSpe false ::
               (sr_polls hwIdle 0 0 ++ .setCsusp true :: []),
             srCount := 0 + (0 + 1), rxCount := 0, txLog := [], word_size := 9 } :=
  set_word_size_v3_sequence hwIdle 1 {} 9 0 (by decide) (by intro i hi; omega)
    (by decide) (by decide)

/-- Claim C10: every asynchronous DMA operation invoked with zero-length
buffers returns `Ok` immediately with the state unchanged — no register is
read or written (no event is logged) and the DMA collaborator is never
invoked. -/
theorem zero_length_dma_noop :
    (∀ (g : Gen) (hw : Hw) (fuel : Nat) (s : St) (cfg : Nat),
      write_dma g hw fuel s cfg [] = some (s, .ok ())) ∧
    (∀ (g : Gen) (hw : Hw) (fuel : Nat) (s : St) (cfg : Nat),
      read_dma g hw fuel s cfg 0 = some (s, .ok ())) ∧
    (∀ (g : Gen) (hw : Hw) (fuel : Nat) (s : St) (cfg : Nat),
      transfer_inner g hw fuel s cfg 0 [] = some (s, .ok ())) := by
  refine ⟨?_, ?_, ?_⟩ <;> intro g hw fuel s cfg <;> rfl


theorem flush_streak (hw : Hw) :
    ∀ (k fuel : Nat) (s : St),
      (∀ i, i < k → (hw.srs (s.srCount + i)).rxr = true) →
      (hw.srs (s.srCount + k)).rxr = false → k < fuel →
      flush_rx_fifo hw fuel s =
        some { s with events := drain_events hw s.srCount s.rxCount s.txLog k ++ s.events,
                      srCount := s.srCount + (k + 1), rxCount := s.rxCount + k } := by
  intro k
  induction k with
  | zero =>
    intro fuel s _ hstop hfuel
    obtain ⟨f, rfl⟩ : ∃ f, fuel = f + 1 := ⟨fuel - 1, by omega⟩
    unfold flush_rx_fifo
    simp only [readSrReg]
    rw [Nat.add_zero] at hstop
    rw [hstop]
    simp [drain_events]
  | succ k ih =>
    intro fuel s hstreak hstop hfuel
    obtain ⟨f, rfl⟩ : ∃ f, fuel = f + 1 := ⟨fuel - 1, by omega⟩
    unfold flush_rx_fifo
    simp only [readSrReg, readRxReg]
    have h0 : (hw.srs s.srCount).rxr = true := by simpa using hstreak 0 (by omega)
    rw [h0]
    simp only [if_true]
    have hrec := ih f
      { s with events := Event.readRx (hw.rx s.rxCount s.txLog) ::
                 Event.readSr (hw.srs s.srCount) :: s.events,
               srCount := s.srCount + 1, rxCount := s.rxCount + 1 }
      (by intro i hi; simpa [Nat.add_assoc, Nat.add_comm 1 i] using hstreak (i + 1) (by omega))
      (by simpa [Nat.add_assoc, Nat.add_comm 1 k] using hstop)
      (by omega)
    rw [hrec]
    simp only [Option.some.injEq, St.mk.injEq, and_true, true_and]
    refine ⟨?_, by omega, by omega⟩
    conv_rhs => rw [drain_events]
    simp [List.append_assoc]


theorem suffix_cons2 {α : Type} (a b : α) (l : List α) : l <:+ a :: b :: l :=
  (List.suffix_cons b l).trans (List.suffix_cons a _)

theorem suffix_cons3 {α : Type} (a b c : α) (l : List α) : l <:+ a :: b :: c :: l :=
  (suffix_cons2 b c l).trans (List.suffix_cons a _)

theorem suffix_cons4 {α : Type} (a b c d : α) (l : List α) : l <:+ a :: b :: c :: d :: l :=
  (suffix_cons3 b c d l).trans (List.suffix_cons a _)



theorem events_suffix_spin_until (ready : SrFlags → Bool) (hw : Hw) :
    ∀ (fuel : Nat) (s s' : St) (r : Except Error Unit),
      spin_until ready hw fuel s = some (s', r) → s.events <:+ s'.events := by
  intro fuel
  induction fuel with
  | zero => intro s s' r h; cases h
  | succ f ih =>
    intro s s' r h
    unfold spin_until at h
    simp only [readSrReg] at h
    cases hc : check_error_flags (hw.srs s.srCount) with
    | some e => rw [hc] at h; cases h; exact List.suffix_cons _ _
    | none =>
      rw [hc] at h
      by_cases hr : ready (hw.srs s.srCount)
      · rw [if_pos hr] at h; cases h; exact List.suffix_cons _ _
      · rw [if_neg hr] at h
        exact (List.suffix_cons _ _).trans (ih _ _ _ h)

theorem events_suffix_spin_while (cond : SrFlags → Bool) (hw : Hw) :
    ∀ (fuel : Nat) (s s' : St), spin_while cond hw fuel s = some s' → s.events <:+ s'.events := by
  intro fuel
  induction fuel with
  | zero => intro s s' h; cases h
  | succ f ih =>
    intro s s' h
    unfold spin_while at h
    simp only [readSrReg] at h
    by_cases hc : cond (hw.srs s.srCount)
    · rw [if_pos hc] at h
      exact (List.suffix_cons _ _).trans (ih _ _ h)
    · rw [if_neg hc] at h; cases h; exact List.suffix_cons _ _

theorem events_suffix_flush (hw : Hw) :
    ∀ (fuel : Nat) (s s' : St), flush_rx_fifo hw fuel s = some s' → s.events <:+ s'.events := by
  intro fuel
  induction fuel with
  | zero => intro s s' h; cases h
  | succ f ih =>
    intro s s' h
    unfold flush_rx_fifo at h
    simp only [readSrReg, readRxReg] at h
    by_cases hc : (hw.srs s.srCount).rxr
    · rw [if_pos hc] at h
      refine List.IsSuffix.trans ?_ (ih _ _ h)
      exact suffix_cons2 _ _ _
    · rw [if_neg hc] at h; cases h; exact List.suffix_cons _ _

theorem events_suffix_set_word_size (g : Gen) (hw : Hw) (fuel : Nat) (s : St) (w : Nat)
    (s' : St) (h : set_word_size g hw fuel s w = some s') : s.events <:+ s'.events := by
  unfold set_word_size at h
  split_ifs at h with hc
  · cases h; exact List.suffix_refl _
  · cases g <;> simp only [] at h
    · cases h; exact suffix_cons3 _ _ _ _
    · cases h; exact suffix_cons3 _ _ _ _
    · cases hsp : spin_while (fun sr => sr.eot) hw fuel (emit (.setCsusp true) s) with
      | none => rw [hsp] at h; cases h
      | some s1 =>
        rw [hsp] at h; cases h
        have h1 : s.events <:+ s1.events :=
          (List.suffix_cons _ _).trans (events_suffix_spin_while _ hw fuel _ s1 hsp)
        exact h1.trans (suffix_cons4 _ _ _ _ _)

theorem events_suffix_transfer_word (g : Gen) (hw : Hw) (fuel : Nat) (s : St) (w : Nat)
    (s' : St) (r : Except Error Nat)
    (h : transfer_word g hw fuel s w = some (s', r)) : s.events <:+ s'.events := by
  unfold transfer_word at h
  cases hsp : spin_until_tx_ready hw fuel s with
  | none => rw [hsp] at h; cases h
  | some p =>
    obtain ⟨s1, r1⟩ := p
    have h1 : s.events <:+ s1.events := events_suffix_spin_until _ hw fuel s s1 r1 hsp
    rw [hsp] at h
    cases r1 with
    | error e => simp only [] at h; cases h; exact h1
    | ok u =>
      cases u
      simp only [] at h
      cases hsp2 : spin_until_rx_ready hw fuel
          (if g = .v3 then emit (.setCstart true) (writeTxReg w s1) else writeTxReg w s1) with
      | none => rw [hsp2] at h; cases h
      | some p2 =>
        obtain ⟨s2, r2⟩ := p2
        have h2 : s1.events <:+ s2.events := by
          refine List.IsSuffix.trans ?_ (events_suffix_spin_until _ hw fuel _ s2 r2 hsp2)
          split_ifs
          · exact suffix_cons2 _ _ _
          · exact List.suffix_cons _ _
        rw [hsp2] at h
        cases r2 with
        | error e => simp only [] at h; cases h; exact h1.trans h2
        | ok u =>
          cases u
          simp only [readRxReg] at h
          cases h
          exact (h1.trans h2).trans (List.suffix_cons _ _)


theorem events_suffix_write_go (g : Gen) (hw : Hw) (fuel : Nat) :
    ∀ (words : List Nat) (s s' : St) (r : Except Error Unit),
      blocking_write_go g hw fuel s words = some (s', r) → s.events <:+ s'.events := by
  intro words
  induction words with
  | nil => intro s s' r h; cases h; exact List.suffix_refl _
  | cons w ws ih =>
    intro s s' r h
    unfold blocking_write_go at h
    cases htw : transfer_word g hw fuel s w with
    | none => rw [htw] at h; cases h
    | some p =>
      obtain ⟨s1, r1⟩ := p
      rw [htw] at h
      have h1 := events_suffix_transfer_word g hw fuel s w s1 r1 htw
      cases r1 with
      | error e => simp only [] at h; cases h; exact h1
      | ok v => simp only [] at h; exact h1.trans (ih s1 s' r h)

theorem events_suffix_read_go (g : Gen) (hw : Hw) (fuel : Nat) :
    ∀ (n : Nat) (s s' : St) (r : Except Error (List Nat)),
      blocking_read_go g hw fuel s n = some (s', r) → s.events <:+ s'.events := by
  intro n
  induction n with
  | zero => intro s s' r h; cases h; exact List.suffix_refl _
  | succ n ih =>
    intro s s' r h
    unfold blocking_read_go at h
    cases htw : transfer_word g hw fuel s 0 with
    | none => rw [htw] at h; cases h
    | some p =>
      obtain ⟨s1, r1⟩ := p
      rw [htw] at h
      have h1 := events_suffix_transfer_word g hw fuel s 0 s1 r1 htw
      cases r1 with
      | error e => simp only [] at h; cases h; exact h1
      | ok v =>
        simp only [] at h
        cases hrec : blocking_read_go g hw fuel s1 n with
        | none => rw [hrec] at h; cases h
        | some p2 =>
          obtain ⟨s2, r2⟩ := p2
          rw [hrec] at h
          have h2 := ih s1 s2 r2 hrec
          cases r2 with
          | error e => simp only [] at h; cases h; exact h1.trans h2
          | ok rs => simp only [] at h; cases h; exact h1.trans h2

theorem events_suffix_tip_go (g : Gen) (hw : Hw) (fuel : Nat) :
    ∀ (words : List Nat) (s s' : St) (r : Except Error (List Nat)),
      blocking_transfer_in_place_go g hw fuel s words = some (s', r) → s.events <:+ s'.events := by
  intro words
  induction words with
  | nil => intro s s' r h; cases h; exact List.suffix_refl _
  | cons w ws ih =>
    intro s s' r h
    unfold blocking_transfer_in_place_go at h
    cases htw : transfer_word g hw fuel s w with
    | none => rw [htw] at h; cases h
    | some p =>
      obtain ⟨s1, r1⟩ := p
      rw [htw] at h
      have h1 := events_suffix_transfer_word g hw fuel s w s1 r1 htw
      cases r1 with
      | error e => simp only [] at h; cases h; exact h1
      | ok v =>
        simp only [] at h
        cases hrec : blocking_transfer_in_place_go g hw fuel s1 ws with
        | none => rw [hrec] at h; cases h
        | some p2 =>
          obtain ⟨s2, r2⟩ := p2
          rw [hrec] at h
          have h2 := ih s1 s2 r2 hrec
          cases r2 with
          | error e => simp only [] at h; cases h; exact h1.trans h2
          | ok rs => simp only [] at h; cases h; exact h1.trans h2

theorem events_suffix_transfer_go (g : Gen) (hw : Hw) (fuel : Nat) :
    ∀ (remaining : Nat) (s : St) (readBuf write : List Nat) (i : Nat) (s' : St)
      (r : Except Error (List Nat)),
      blocking_transfer_go g hw fuel s readBuf write i remaining = some (s', r) →
      s.events <:+ s'.events := by
  intro remaining
  induction remaining with
  | zero => intro s readBuf write i s' r h; cases h; exact List.suffix_refl _
  | succ m ih =>
    intro s readBuf write i s' r h
    unfold blocking_transfer_go at h
    cases htw : transfer_word g hw fuel s (write.getD i 0) with
    | none => rw [htw] at h; cases h
    | some p =>
      obtain ⟨s1, r1⟩ := p
      rw [htw] at h
      have h1 := events_suffix_transfer_word g hw fuel s (write.getD i 0) s1 r1 htw
      cases r1 with
      | error e => simp only [] at h; cases h; exact h1
      | ok rb => simp only [] at h; exact h1.trans (ih s1 _ write (i + 1) s' r h)


/-- Claim C5 (amended): every blocking operation, after setting the
peripheral enable bit, drains stale receive data (one status poll and one
data-register read per stale word, then the terminating poll) on EVERY
generation — including Gen3, whose `flush_rx_fifo` arm polls RXP and reads
RXDR32 — before `set_word_size` and the per-word transfer loop run.  (The
drain is skipped on Gen3 only on the DMA path, `read`/`transfer_inner`.)
Formally: the trace of any completed blocking call has the enable event
followed by the full drain trace as a suffix. -/
theorem blocking_drain_every_generation (g : Gen) (hw : Hw) (fuel : Nat) (s : St) (cfg k : Nat)
    (hstreak : ∀ i, i < k → (hw.srs (s.srCount + i)).rxr = true)
    (hstop : (hw.srs (s.srCount + k)).rxr = false) (hfuel : k < fuel) :
    (∀ (words : List Nat) (s' : St) (r : Except Error Unit),
      blocking_write g hw fuel s cfg words = some (s', r) →
      (drain_events hw s.srCount s.rxCount s.txLog k ++
        Event.setSpe true :: s.events) <:+ s'.events) ∧
    (∀ (n : Nat) (s' : St) (r : Except Error (List Nat)),
      blocking_read g hw fuel s cfg n = some (s', r) →
      (drain_events hw s.srCount s.rxCount s.txLog k ++
        Event.setSpe true :: s.events) <:+ s'.events) ∧
    (∀ (words : List Nat) (s' : St) (r : Except Error (List Nat)),
      blocking_transfer_in_place g hw fuel s cfg words = some (s', r) →
      (drain_events hw s.srCount s.rxCount s.txLog k ++
        Event.setSpe true :: s.events) <:+ s'.events) ∧
    (∀ (readBuf write : List Nat) (s' : St) (r : Except Error (List Nat)),
      blocking_transfer g hw fuel s cfg readBuf write = some (s', r) →
      (drain_events hw s.srCount s.rxCount s.txLog k ++
        Event.setSpe true :: s.events) <:+ s'.events) := by
  have hfl := flush_streak hw k fuel (emit (.setSpe true) s) hstreak hstop hfuel
  refine ⟨?_, ?_, ?_, ?_⟩
  · intro words s' r h
    unfold blocking_write at h
    rw [hfl] at h
    simp only [] at h
    cases hsw : set_word_size g hw fuel _ cfg with
    | none => rw [hsw] at h; cases h
    | some s3 =>
      rw [hsw] at h
      have h2 := events_suffix_set_word_size g hw fuel _ cfg s3 hsw
      have h3 := events_suffix_write_go g hw fuel words s3 s' r h
      exact List.IsSuffix.trans (List.IsSuffix.trans (List.suffix_refl _) h2) h3
  · intro n s' r h
    unfold blocking_read at h
    rw [hfl] at h
    simp only [] at h
    cases hsw : set_word_size g hw fuel _ cfg with
    | none => rw [hsw] at h; cases h
    | some s3 =>
      rw [hsw] at h
      have h2 := events_suffix_set_word_size g hw fuel _ cfg s3 hsw
      have h3 := events_suffix_read_go g hw fuel n s3 s' r h
      exact List.IsSuffix.trans h2 h3
  · intro words s' r h
    unfold blocking_transfer_in_place at h
    rw [hfl] at h
    simp only [] at h
    cases hsw : set_word_size g hw fuel _ cfg with
    | none => rw [hsw] at h; cases h
    | some s3 =>
      rw [hsw] at h
      have h2 := events_suffix_set_word_size g hw fuel _ cfg s3 hsw
      have h3 := events_suffix_tip_go g hw fuel words s3 s' r h
      exact List.IsSuffix.trans h2 h3
  · intro readBuf write s' r h
    unfold blocking_transfer at h
    rw [hfl] at h
    simp only [] at h
    cases hsw : set_word_size g hw fuel _ cfg with
    | none => rw [hsw] at h; cases h
    | some s3 =>
      rw [hsw] at h
      have h2 := events_suffix_set_word_size g hw fuel _ cfg s3 hsw
      have h3 := events_suffix_transfer_go g hw fuel _ s3 readBuf write 0 s' r h
      exact List.IsSuffix.trans h2 h3


/-- Claim C5 (counterexample): the claim says the drain step is skipped on
Gen3.  It is not: on Gen3 hardware with one stale word in the receive FIFO,
`blocking_write` with an empty word list performs exactly one receive-data
read — the drain — so the number of receive reads is not zero. -/
theorem blocking_drain_gen3_counterexample :
    rx_read_count (blocking_write .v3 hwStaleRx 2 {} 7 []) = 1 ∧
    rx_read_count (blocking_write .v3 hwStaleRx 2 {} 7 []) ≠ 0 := by
  constructor
  · decide
  · decide

/-- Witness for the amended C5 on Gen3 with one stale word: the drain trace
(one poll/discard pair plus terminating poll) preceded by the enable event
is a suffix of the run's trace. -/
theorem blocking_drain_every_generation_witness :
    (drain_events hwStaleRx 0 0 [] 1 ++ Event.setSpe true :: ([] : List Event)) <:+
      [Event.readSr {}, Event.readRx 0, Event.readSr { rxr := true }, Event.setSpe true] :=
  (blocking_drain_every_generation .v3 hwStaleRx 2 {} 7 1 (by decide) (by decide) (by decide)).1 []
    { events := [Event.readSr {}, Event.readRx 0, Event.readSr { rxr := true },
        Event.setSpe true],
      srCount := 2, rxCount := 1, txLog := [], word_size := 7 } (.ok ()) (by rfl)



theorem loopback_transfer_word (g : Gen) (fuel : Nat) (hf : 1 ≤ fuel) (s : St) (wb : Nat) :
    ∃ s', transfer_word g loopback fuel s wb = some (s', .ok wb) ∧
      s'.txLog = wb :: s.txLog ∧ s'.word_size = s.word_size := by
  obtain ⟨f, rfl⟩ : ∃ f, fuel = f + 1 := ⟨fuel - 1, by omega⟩
  cases g <;> exact ⟨_, rfl, rfl, rfl⟩


theorem setFrom_length (write : List Nat) :
    ∀ (r : Nat) (readBuf : List Nat) (i : Nat),
      (setFrom write readBuf i r).length = readBuf.length := by
  intro r
  induction r with
  | zero => intro readBuf i; rfl
  | succ r ih => intro readBuf i; rw [setFrom, ih, List.length_set]

theorem setFrom_get (write : List Nat) :
    ∀ (r i : Nat) (readBuf : List Nat) (j : Nat) (hj : j < (setFrom write readBuf i r).length),
      (setFrom write readBuf i r).get ⟨j, hj⟩ =
        if i ≤ j ∧ j < i + r then write.getD j 0
        else readBuf.get ⟨j, by rw [setFrom_length] at hj; exact hj⟩ := by
  intro r
  induction r with
  | zero =>
    intro i readBuf j hj
    rw [if_neg (by omega)]
    rfl
  | succ r ih =>
    intro i readBuf j hj
    simp only [setFrom] at hj ⊢
    rw [ih (i + 1) (readBuf.set i (write.getD i 0)) j hj]
    by_cases h1 : i + 1 ≤ j ∧ j < i + 1 + r
    · rw [if_pos h1, if_pos (by omega)]
    · rw [if_neg h1]
      have hjlen : j < (readBuf.set i (write.getD i 0)).length := by
        rw [setFrom_length] at hj; exact hj
      rw [List.get_set hjlen]
      by_cases h2 : i = j
      · subst h2
        rw [if_pos rfl, if_pos (by omega)]
      · rw [if_neg h2]
        by_cases h3 : i ≤ j ∧ j < i + (r + 1)
        · exact absurd ⟨by omega, by omega⟩ h1
        · rw [if_neg h3]

theorem loopback_transfer_go (g : Gen) (fuel : Nat) (hf : 1 ≤ fuel) (write : List Nat) :
    ∀ (remaining : Nat) (s : St) (readBuf : List Nat) (i : Nat),
      ∃ s', blocking_transfer_go g loopback fuel s readBuf write i remaining =
          some (s', .ok (setFrom write readBuf i remaining)) ∧
        s'.txLog = ((List.range remaining).map (fun j => write.getD (i + j) 0)).reverse ++ s.txLog := by
  intro remaining
  induction remaining with
  | zero =>
    intro s readBuf i
    exact ⟨s, rfl, by simp⟩
  | succ m ih =>
    intro s readBuf i
    obtain ⟨s1, htw, htx, _⟩ := loopback_transfer_word g fuel hf s (write.getD i 0)
    obtain ⟨s', hgo, htx'⟩ := ih s1 (readBuf.set i (write.getD i 0)) (i + 1)
    refine ⟨s', ?_, ?_⟩
    · rw [blocking_transfer_go, htw]
      simp only []
      rw [hgo]
      rfl
    · have hmap : List.map (fun j => write.getD (i + 1 + j) 0) (List.range m)
          = List.map ((fun j => write.getD (i + j) 0) ∘ Nat.succ) (List.range m) := by
        apply List.map_congr_left
        intro j hj
        simp only [Function.comp_apply]
        have h : i + 1 + j = i + Nat.succ j := by omega
        rw [h]
      rw [htx', htx, hmap, List.range_succ_eq_map, List.map_cons, List.map_map,
        List.reverse_cons, List.append_assoc]
      simp


theorem set_word_size_id (g : Gen) (hw : Hw) (fuel : Nat) (s : St) (w : Nat)
    (h : s.word_size = w) : set_word_size g hw fuel s w = some s := by
  unfold set_word_size; rw [if_pos h]

theorem setFrom_all (write readBuf : List Nat) (r : Nat) (hr : readBuf.length ≤ r) :
    setFrom write readBuf 0 r = (List.range readBuf.length).map (fun j => write.getD j 0) := by
  apply List.ext_get
  · rw [setFrom_length, List.length_map, List.length_range]
  · intro j h1 h2
    have hjb : j < readBuf.length := by rw [setFrom_length] at h1; exact h1
    rw [setFrom_get]
    rw [if_pos ⟨Nat.zero_le _, by omega⟩]
    simp only [List.get_eq_getElem, List.getElem_map, List.getElem_range]

/-- Claim C2: with the loopback register double (each received word equals
the word just transmitted), `blocking_transfer(read, write)` succeeds, the
transmitted sequence is exactly `max(read.len, write.len)` words in order —
`write[i]` when `i < write.len`, the zero default word otherwise — and the
final read buffer equals that transmitted sequence truncated to `read.len`
(received words beyond `read.len` are discarded). -/
theorem blocking_transfer_loopback_echo (g : Gen) (fuel : Nat) (hf : 1 ≤ fuel) (readBuf write : List Nat) :
    (blocking_transfer g loopback fuel {} 7 readBuf write).map
        (fun p => (p.2, p.1.txLog.reverse)) =
      some (Except.ok ((List.range readBuf.length).map (fun j => write.getD j 0)),
            (List.range (max readBuf.length write.length)).map (fun j => write.getD j 0)) := by
  have hfl := flush_streak loopback 0 fuel (emit (.setSpe true) {}) (by intro i hi; omega)
    (by decide) (by omega)
  unfold blocking_transfer
  rw [hfl]
  simp only []
  rw [set_word_size_id g loopback fuel _ 7 rfl]
  simp only []
  obtain ⟨s', hgo, htx⟩ :=
    loopback_transfer_go g fuel hf write (max readBuf.length write.length) _ readBuf 0
  rw [hgo]
  simp only [Option.map_some']
  rw [setFrom_all write readBuf _ (le_max_left _ _), htx]
  simp [Nat.zero_add]
  rfl


/-- Witness for C2: `blockingTransfer([0,0,0], [0x11,0x22,0x33])` reads back
`[0x11,0x22,0x33]` and transmits exactly those three words (spec testable
property 6). -/
theorem blocking_transfer_loopback_echo_witness :
    (blocking_transfer .v1 loopback 1 {} 7 [0, 0, 0] [17, 34, 51]).map
        (fun p => (p.2, p.1.txLog.reverse)) =
      some (Except.ok [17, 34, 51], [17, 34, 51]) :=
  blocking_transfer_loopback_echo .v1 1 (by decide) [0, 0, 0] [17, 34, 51]



theorem spin_until_error (ready : SrFlags → Bool) (hw : Hw) :
    ∀ (fuel : Nat) (s s' : St) (e : Error),
      spin_until ready hw fuel s = some (s', .error e) →
      check_error_flags (hw.srs (s'.srCount - 1)) = some e ∧
      s'.txLog = s.txLog ∧ s.srCount < s'.srCount := by
  intro fuel
  induction fuel with
  | zero => intro s s' e h; cases h
  | succ f ih =>
    intro s s' e h
    unfold spin_until at h
    simp only [readSrReg] at h
    cases hc : check_error_flags (hw.srs s.srCount) with
    | some e0 =>
      rw [hc] at h
      simp only [Option.some.injEq, Prod.mk.injEq] at h
      obtain ⟨h1, h2⟩ := h
      cases h2
      subst h1
      exact ⟨by simpa using hc, rfl, by simp⟩
    | none =>
      rw [hc] at h
      by_cases hr : ready (hw.srs s.srCount)
      · rw [if_pos hr] at h
        simp only [Option.some.injEq, Prod.mk.injEq] at h
        cases h.2
      · rw [if_neg hr] at h
        obtain ⟨h1, h2, h3⟩ := ih _ s' e h
        exact ⟨h1, h2, by simp at h3 ⊢; omega⟩

theorem spin_until_ok (ready : SrFlags → Bool) (hw : Hw) :
    ∀ (fuel : Nat) (s s' : St) (u : Unit),
      spin_until ready hw fuel s = some (s', .ok u) → s'.txLog = s.txLog := by
  intro fuel
  induction fuel with
  | zero => intro s s' u h; cases h
  | succ f ih =>
    intro s s' u h
    unfold spin_until at h
    simp only [readSrReg] at h
    cases hc : check_error_flags (hw.srs s.srCount) with
    | some e0 =>
      rw [hc] at h
      simp only [Option.some.injEq, Prod.mk.injEq] at h
      cases h.2
    | none =>
      rw [hc] at h
      by_cases hr : ready (hw.srs s.srCount)
      · rw [if_pos hr] at h
        simp only [Option.some.injEq, Prod.mk.injEq] at h
        rw [← h.1]
      · rw [if_neg hr] at h
        exact (ih _ s' u h).trans rfl

theorem spin_while_txLog (cond : SrFlags → Bool) (hw : Hw) :
    ∀ (fuel : Nat) (s s' : St), spin_while cond hw fuel s = some s' → s'.txLog = s.txLog := by
  intro fuel
  induction fuel with
  | zero => intro s s' h; cases h
  | succ f ih =>
    intro s s' h
    unfold spin_while at h
    simp only [readSrReg] at h
    by_cases hc : cond (hw.srs s.srCount)
    · rw [if_pos hc] at h; exact (ih _ s' h).trans rfl
    · rw [if_neg hc] at h; cases h; rfl

theorem flush_txLog (hw : Hw) :
    ∀ (fuel : Nat) (s s' : St), flush_rx_fifo hw fuel s = some s' → s'.txLog = s.txLog := by
  intro fuel
  induction fuel with
  | zero => intro s s' h; cases h
  | succ f ih =>
    intro s s' h
    unfold flush_rx_fifo at h
    simp only [readSrReg, readRxReg] at h
    by_cases hc : (hw.srs s.srCount).rxr
    · rw [if_pos hc] at h; exact (ih _ s' h).trans rfl
    · rw [if_neg hc] at h; cases h; rfl

theorem set_word_size_txLog (g : Gen) (hw : Hw) (fuel : Nat) (s : St) (w : Nat) (s' : St)
    (h : set_word_size g hw fuel s w = some s') : s'.txLog = s.txLog := by
  unfold set_word_size at h
  split_ifs at h with hc
  · cases h; rfl
  · cases g <;> simp only [] at h
    · cases h; rfl
    · cases h; rfl
    · cases hsp : spin_while (fun sr => sr.eot) hw fuel (emit (.setCsusp true) s) with
      | none => rw [hsp] at h; cases h
      | some s1 =>
        rw [hsp] at h; cases h
        exact (spin_while_txLog _ hw fuel _ s1 hsp).trans rfl

theorem transfer_word_error (g : Gen) (hw : Hw) (fuel : Nat) (s : St) (w : Nat) (s' : St)
    (e : Error) (h : transfer_word g hw fuel s w = some (s', .error e)) :
    check_error_flags (hw.srs (s'.srCount - 1)) = some e ∧
    (s'.txLog = s.txLog ∨ s'.txLog = w :: s.txLog) := by
  unfold transfer_word at h
  cases hsp : spin_until_tx_ready hw fuel s with
  | none => rw [hsp] at h; cases h
  | some p =>
    obtain ⟨s1, r1⟩ := p
    rw [hsp] at h
    cases r1 with
    | error e1 =>
      simp only [Option.some.injEq, Prod.mk.injEq] at h
      obtain ⟨rfl, h2⟩ := h
      cases h2
      obtain ⟨hc, ht, _⟩ := spin_until_error _ hw fuel s s1 e hsp
      exact ⟨hc, Or.inl ht⟩
    | ok u =>
      cases u
      simp only [] at h
      have ht1 : s1.txLog = s.txLog := spin_until_ok _ hw fuel s s1 () hsp
      cases hsp2 : spin_until_rx_ready hw fuel
          (if g = .v3 then emit (.setCstart true) (writeTxReg w s1) else writeTxReg w s1) with
      | none => rw [hsp2] at h; cases h
      | some p2 =>
        obtain ⟨s2, r2⟩ := p2
        rw [hsp2] at h
        cases r2 with
        | error e2 =>
          simp only [Option.some.injEq, Prod.mk.injEq] at h
          obtain ⟨rfl, h2⟩ := h
          cases h2
          obtain ⟨hc, ht, _⟩ := spin_until_error _ hw fuel _ s2 e hsp2
          refine ⟨hc, Or.inr ?_⟩
          rw [ht]
          have : (if g = .v3 then emit (.setCstart true) (writeTxReg w s1)
              else writeTxReg w s1).txLog = w :: s1.txLog := by
            split_ifs <;> rfl
          rw [this, ht1]
        | ok v =>
          simp only [readRxReg, Option.some.injEq, Prod.mk.injEq] at h
          cases h.2

theorem transfer_word_ok (g : Gen) (hw : Hw) (fuel : Nat) (s : St) (w : Nat) (s' : St)
    (v : Nat) (h : transfer_word g hw fuel s w = some (s', .ok v)) :
    s'.txLog = w :: s.txLog := by
  unfold transfer_word at h
  cases hsp : spin_until_tx_ready hw fuel s with
  | none => rw [hsp] at h; cases h
  | some p =>
    obtain ⟨s1, r1⟩ := p
    rw [hsp] at h
    cases r1 with
    | error e1 =>
      simp only [Option.some.injEq, Prod.mk.injEq] at h
      cases h.2
    | ok u =>
      cases u
      simp only [] at h
      have ht1 : s1.txLog = s.txLog := spin_until_ok _ hw fuel s s1 () hsp
      cases hsp2 : spin_until_rx_ready hw fuel
          (if g = .v3 then emit (.setCstart true) (writeTxReg w s1) else writeTxReg w s1) with
      | none => rw [hsp2] at h; cases h
      | some p2 =>
        obtain ⟨s2, r2⟩ := p2
        rw [hsp2] at h
        cases r2 with
        | error e2 =>
          simp only [Option.some.injEq, Prod.mk.injEq] at h
          cases h.2
        | ok u2 =>
          simp only [readRxReg, Option.some.injEq, Prod.mk.injEq] at h
          obtain ⟨h1, _⟩ := h
          rw [← h1]
          have ht2 : s2.txLog = w :: s1.txLog := by
            have := spin_until_ok _ hw fuel _ s2 () hsp2
            rw [this]
            split_ifs <;> rfl
          rw [ht2, ht1]


theorem write_go_error (g : Gen) (hw : Hw) (fuel : Nat) :
    ∀ (words : List Nat) (s s' : St) (e : Error),
      blocking_write_go g hw fuel s words = some (s', .error e) →
      check_error_flags (hw.srs (s'.srCount - 1)) = some e ∧
      ∃ n, n ≤ words.length ∧ s'.txLog = (words.take n).reverse ++ s.txLog := by
  intro words
  induction words with
  | nil => intro s s' e h; simp [blocking_write_go] at h
  | cons w ws ih =>
    intro s s' e h
    unfold blocking_write_go at h
    cases htw : transfer_word g hw fuel s w with
    | none => rw [htw] at h; cases h
    | some p =>
      obtain ⟨s1, r1⟩ := p
      rw [htw] at h
      cases r1 with
      | error e1 =>
        simp only [Option.some.injEq, Prod.mk.injEq, Except.error.injEq] at h
        obtain ⟨rfl, rfl⟩ := h
        obtain ⟨hc, ht⟩ := transfer_word_error g hw fuel s w s1 _ htw
        refine ⟨hc, ?_⟩
        cases ht with
        | inl ht => exact ⟨0, by omega, by simpa using ht⟩
        | inr ht => exact ⟨1, by simp, by simpa using ht⟩
      | ok v =>
        simp only [] at h
        obtain ⟨hc, n, hn, htx⟩ := ih s1 _ _ h
        refine ⟨hc, n + 1, by simp; omega, ?_⟩
        rw [htx, transfer_word_ok g hw fuel s w s1 v htw]
        simp [List.take_succ_cons]

theorem read_go_error (g : Gen) (hw : Hw) (fuel : Nat) :
    ∀ (n : Nat) (s s' : St) (e : Error),
      blocking_read_go g hw fuel s n = some (s', .error e) →
      check_error_flags (hw.srs (s'.srCount - 1)) = some e := by
  intro n
  induction n with
  | zero => intro s s' e h; simp [blocking_read_go] at h
  | succ n ih =>
    intro s s' e h
    unfold blocking_read_go at h
    cases htw : transfer_word g hw fuel s 0 with
    | none => rw [htw] at h; cases h
    | some p =>
      obtain ⟨s1, r1⟩ := p
      rw [htw] at h
      cases r1 with
      | error e1 =>
        simp only [Option.some.injEq, Prod.mk.injEq, Except.error.injEq] at h
        obtain ⟨rfl, rfl⟩ := h
        exact (transfer_word_error g hw fuel s 0 s1 _ htw).1
      | ok v =>
        simp only [] at h
        cases hrec : blocking_read_go g hw fuel s1 n with
        | none => rw [hrec] at h; cases h
        | some p2 =>
          obtain ⟨s2, r2⟩ := p2
          rw [hrec] at h
          cases r2 with
          | error e2 =>
            simp only [Option.some.injEq, Prod.mk.injEq, Except.error.injEq] at h
            obtain ⟨rfl, rfl⟩ := h
            exact ih s1 _ _ hrec
          | ok rs => simp only [Option.some.injEq, Prod.mk.injEq] at h; cases h.2

theorem tip_go_error (g : Gen) (hw : Hw) (fuel : Nat) :
    ∀ (words : List Nat) (s s' : St) (e : Error),
      blocking_transfer_in_place_go g hw fuel s words = some (s', .error e) →
      check_error_flags (hw.srs (s'.srCount - 1)) = some e ∧
      ∃ n, n ≤ words.length ∧ s'.txLog = (words.take n).reverse ++ s.txLog := by
  intro words
  induction words with
  | nil => intro s s' e h; simp [blocking_transfer_in_place_go] at h
  | cons w ws ih =>
    intro s s' e h
    unfold blocking_transfer_in_place_go at h
    cases htw : transfer_word g hw fuel s w with
    | none => rw [htw] at h; cases h
    | some p =>
      obtain ⟨s1, r1⟩ := p
      rw [htw] at h
      cases r1 with
      | error e1 =>
        simp only [Option.some.injEq, Prod.mk.injEq, Except.error.injEq] at h
        obtain ⟨rfl, rfl⟩ := h
        obtain ⟨hc, ht⟩ := transfer_word_error g hw fuel s w s1 _ htw
        refine ⟨hc, ?_⟩
        cases ht with
        | inl ht => exact ⟨0, by omega, by simpa using ht⟩
        | inr ht => exact ⟨1, by simp, by simpa using ht⟩
      | ok v =>
        simp only [] at h
        cases hrec : blocking_transfer_in_place_go g hw fuel s1 ws with
        | none => rw [hrec] at h; cases h
        | some p2 =>
          obtain ⟨s2, r2⟩ := p2
          rw [hrec] at h
          cases r2 with
          | error e2 =>
            simp only [Option.some.injEq, Prod.mk.injEq, Except.error.injEq] at h
            obtain ⟨rfl, rfl⟩ := h
            obtain ⟨hc, n, hn, htx⟩ := ih s1 _ _ hrec
            refine ⟨hc, n + 1, by simp; omega, ?_⟩
            rw [htx, transfer_word_ok g hw fuel s w s1 v htw]
            simp [List.take_succ_cons]
          | ok rs => simp only [Option.some.injEq, Prod.mk.injEq] at h; cases h.2

theorem transfer_go_error (g : Gen) (hw : Hw) (fuel : Nat) (write : List Nat) :
    ∀ (remaining : Nat) (s : St) (readBuf : List Nat) (i : Nat) (s' : St) (e : Error),
      blocking_transfer_go g hw fuel s readBuf write i remaining = some (s', .error e) →
      check_error_flags (hw.srs (s'.srCount - 1)) = some e ∧
      ∃ n, n ≤ remaining ∧
        s'.txLog = ((List.range n).map (fun j => write.getD (i + j) 0)).reverse ++ s.txLog := by
  intro remaining
  induction remaining with
  | zero => intro s readBuf i s' e h; simp [blocking_transfer_go] at h
  | succ m ih =>
    intro s readBuf i s' e h
    unfold blocking_transfer_go at h
    cases htw : transfer_word g hw fuel s (write.getD i 0) with
    | none => rw [htw] at h; cases h
    | some p =>
      obtain ⟨s1, r1⟩ := p
      rw [htw] at h
      cases r1 with
      | error e1 =>
        simp only [Option.some.injEq, Prod.mk.injEq, Except.error.injEq] at h
        obtain ⟨rfl, rfl⟩ := h
        obtain ⟨hc, ht⟩ := transfer_word_error g hw fuel s (write.getD i 0) s1 _ htw
        refine ⟨hc, ?_⟩
        cases ht with
        | inl ht => exact ⟨0, by omega, by simpa using ht⟩
        | inr ht =>
          refine ⟨1, by omega, ?_⟩
          rw [ht]
          simp [List.range_succ]
      | ok rb =>
        simp only [] at h
        obtain ⟨hc, n, hn, htx⟩ := ih s1 (readBuf.set i rb) (i + 1) _ _ h
        refine ⟨hc, n + 1, by omega, ?_⟩
        rw [htx, transfer_word_ok g hw fuel s (write.getD i 0) s1 rb htw]
        have hmap : List.map (fun j => write.getD (i + 1 + j) 0) (List.range n)
            = List.map ((fun j => write.getD (i + j) 0) ∘ Nat.succ) (List.range n) := by
          apply List.map_congr_left
          intro j hj
          simp only [Function.comp_apply]
          have hh : i + 1 + j = i + Nat.succ j := by omega
          rw [hh]
        rw [hmap, List.range_succ_eq_map, List.map_cons, List.map_map, List.reverse_cons,
          List.append_assoc]
        simp


theorem spin_until_ok_polls (ready : SrFlags → Bool) (hw : Hw) :
    ∀ (fuel : Nat) (s s' : St) (u : Unit),
      spin_until ready hw fuel s = some (s', .ok u) →
      ∀ i, s.srCount ≤ i → i < s'.srCount → check_error_flags (hw.srs i) = none := by
  intro fuel
  induction fuel with
  | zero => intro s s' u h; cases h
  | succ f ih =>
    intro s s' u h i hi1 hi2
    unfold spin_until at h
    simp only [readSrReg] at h
    cases hc : check_error_flags (hw.srs s.srCount) with
    | some e0 =>
      rw [hc] at h
      simp only [Option.some.injEq, Prod.mk.injEq] at h
      cases h.2
    | none =>
      rw [hc] at h
      by_cases hr : ready (hw.srs s.srCount)
      · rw [if_pos hr] at h
        simp only [Option.some.injEq, Prod.mk.injEq] at h
        obtain ⟨h1, _⟩ := h
        rw [← h1] at hi2
        simp only [] at hi2
        have : i = s.srCount := by omega
        rw [this]; exact hc
      · rw [if_neg hr] at h
        rcases Nat.lt_or_ge i (s.srCount + 1) with hlt | hge
        · have : i = s.srCount := by omega
          rw [this]; exact hc
        · exact ih _ s' u h i (by simpa using hge) hi2

/-- Claim C1: on every poll of the blocking path the status register's
error flags are checked in the fixed order overrun, framing, mode-fault,
CRC, and the first flag observed short-circuits (other set flags are not
reported); polls that pass the check had no error flag set; and when any of
the four blocking operations returns an error, the error is exactly
`check_error_flags` of the last status value polled, and only a prefix of
the requested words was transmitted — the remaining words are not sent. -/
theorem blocking_error_priority_and_abort :
    (∀ sr : SrFlags, sr.ovr = true → check_error_flags sr = some .Overrun) ∧
    (∀ sr : SrFlags, sr.ovr = false → sr.fre = true → check_error_flags sr = some .Framing) ∧
    (∀ sr : SrFlags, sr.ovr = false → sr.fre = false → sr.modf = true →
      check_error_flags sr = some .ModeFault) ∧
    (∀ sr : SrFlags, sr.ovr = false → sr.fre = false → sr.modf = false → sr.crc = true →
      check_error_flags sr = some .Crc) ∧
    (∀ sr : SrFlags, sr.ovr = false → sr.fre = false → sr.modf = false → sr.crc = false →
      check_error_flags sr = none) ∧
    (∀ (ready : SrFlags → Bool) (hw : Hw) (fuel : Nat) (s s' : St) (u : Unit),
      spin_until ready hw fuel s = some (s', .ok u) →
      ∀ i, s.srCount ≤ i → i < s'.srCount → check_error_flags (hw.srs i) = none) ∧
    (∀ (g : Gen) (hw : Hw) (fuel : Nat) (s : St) (cfg : Nat) (words : List Nat) (s' : St)
      (e : Error), blocking_write g hw fuel s cfg words = some (s', .error e) →
      check_error_flags (hw.srs (s'.srCount - 1)) = some e ∧
      ∃ n, n ≤ words.length ∧ s'.txLog = (words.take n).reverse ++ s.txLog) ∧
    (∀ (g : Gen) (hw : Hw) (fuel : Nat) (s : St) (cfg : Nat) (count : Nat) (s' : St)
      (e : Error), blocking_read g hw fuel s cfg count = some (s', .error e) →
      check_error_flags (hw.srs (s'.srCount - 1)) = some e) ∧
    (∀ (g : Gen) (hw : Hw) (fuel : Nat) (s : St) (cfg : Nat) (words : List Nat) (s' : St)
      (e : Error), blocking_transfer_in_place g hw fuel s cfg words = some (s', .error e) →
      check_error_flags (hw.srs (s'.srCount - 1)) = some e ∧
      ∃ n, n ≤ words.length ∧ s'.txLog = (words.take n).reverse ++ s.txLog) ∧
    (∀ (g : Gen) (hw : Hw) (fuel : Nat) (s : St) (cfg : Nat) (readBuf write : List Nat)
      (s' : St) (e : Error),
      blocking_transfer g hw fuel s cfg readBuf write = some (s', .error e) →
      check_error_flags (hw.srs (s'.srCount - 1)) = some e ∧
      ∃ n, n ≤ max readBuf.length write.length ∧
        s'.txLog = ((List.range n).map (fun j => write.getD j 0)).reverse ++ s.txLog) := by
  refine ⟨?_, ?_, ?_, ?_, ?_, spin_until_ok_polls, ?_, ?_, ?_, ?_⟩
  · intro sr h; simp [check_error_flags, h]
  · intro sr h1 h2; simp [check_error_flags, h1, h2]
  · intro sr h1 h2 h3; simp [check_error_flags, h1, h2, h3]
  · intro sr h1 h2 h3 h4; simp [check_error_flags, h1, h2, h3, h4]
  · intro sr h1 h2 h3 h4; simp [check_error_flags, h1, h2, h3, h4]
  · intro g hw fuel s cfg words s' e h
    unfold blocking_write at h
    cases hfl : flush_rx_fifo hw fuel (emit (.setSpe true) s) with
    | none => rw [hfl] at h; cases h
    | some s2 =>
      rw [hfl] at h
      simp only [] at h
      cases hsw : set_word_size g hw fuel s2 cfg with
      | none => rw [hsw] at h; cases h
      | some s3 =>
        rw [hsw] at h
        obtain ⟨hc, n, hn, htx⟩ := write_go_error g hw fuel words s3 s' e h
        refine ⟨hc, n, hn, ?_⟩
        rw [htx, set_word_size_txLog g hw fuel s2 cfg s3 hsw, flush_txLog hw fuel _ s2 hfl]
        rfl
  · intro g hw fuel s cfg count s' e h
    unfold blocking_read at h
    cases hfl : flush_rx_fifo hw fuel (emit (.setSpe true) s) with
    | none => rw [hfl] at h; cases h
    | some s2 =>
      rw [hfl] at h
      simp only [] at h
      cases hsw : set_word_size g hw fuel s2 cfg with
      | none => rw [hsw] at h; cases h
      | some s3 =>
        rw [hsw] at h
        exact read_go_error g hw fuel count s3 s' e h
  · intro g hw fuel s cfg words s' e h
    unfold blocking_transfer_in_place at h
    cases hfl : flush_rx_fifo hw fuel (emit (.setSpe true) s) with
    | none => rw [hfl] at h; cases h
    | some s2 =>
      rw [hfl] at h
      simp only [] at h
      cases hsw : set_word_size g hw fuel s2 cfg with
      | none => rw [hsw] at h; cases h
      | some s3 =>
        rw [hsw] at h
        obtain ⟨hc, n, hn, htx⟩ := tip_go_error g hw fuel words s3 s' e h
        refine ⟨hc, n, hn, ?_⟩
        rw [htx, set_word_size_txLog g hw fuel s2 cfg s3 hsw, flush_txLog hw fuel _ s2 hfl]
        rfl
  · intro g hw fuel s cfg readBuf write s' e h
    unfold blocking_transfer at h
    cases hfl : flush_rx_fifo hw fuel (emit (.setSpe true) s) with
    | none => rw [hfl] at h; cases h
    | some s2 =>
      rw [hfl] at h
      simp only [] at h
      cases hsw : set_word_size g hw fuel s2 cfg with
      | none => rw [hsw] at h; cases h
      | some s3 =>
        rw [hsw] at h
        obtain ⟨hc, n, hn, htx⟩ := transfer_go_error g hw fuel write _ s3 readBuf 0 s' e h
        refine ⟨hc, n, hn, ?_⟩
        rw [htx, set_word_size_txLog g hw fuel s2 cfg s3 hsw, flush_txLog hw fuel _ s2 hfl]
        have hmap : List.map (fun j => write.getD (0 + j) 0) (List.range n)
            = List.map (fun j => write.getD j 0) (List.range n) := by
          apply List.map_congr_left
          intro j hj
          rw [Nat.zero_add]
        rw [hmap]
        rfl


/-- Witness for C1: with all four error flags set, overrun wins; and in the
concrete run where the status double reports overrun on the transmit poll of
the second word, `blocking_write [1,2,3]` returns exactly the error of the
last polled status value (spec testable property 7; the run's state shows
`txLog = [1]`: words 2 and 3 were never transmitted). -/
theorem blocking_error_priority_and_abort_witness :
    check_error_flags { ovr := true, fre := true, modf := true, crc := true } =
      some .Overrun ∧
    check_error_flags (hwOvrOnSecond.srs (4 - 1)) = some .Overrun :=
  ⟨blocking_error_priority_and_abort.1 { ovr := true, fre := true, modf := true, crc := true }
     rfl,
   (blocking_error_priority_and_abort.2.2.2.2.2.2.1 .v1 hwOvrOnSecond 3 {} 7 [1, 2, 3]
     overrunRunState .Overrun (by rfl)).1⟩

end Spi
